import Mathlib

/-!
Verification of the segment lifecycle manager in
`PythonCustomScripts/reencode.py` against its specification.

The development shallowly embeds the pure algorithmic core of the script:

* `calculate_segments` (segment planning, lines 188-207) over exact
  rationals, with the `while` loop made total by an explicit fuel that is
  proved sufficient;
* the resume-scan acceptance test and loop (lines 496-518) over an abstract
  map from segment index to the probed duration of the on-disk artifact;
* the graceful-shutdown ladder of `run_ffmpeg_command` (lines 250-284) as a
  decision tree over the responsiveness of the supervised process;
* the outcome mapping of `run_ffmpeg_command` (lines 221-298);
* `concatenate_segments`' manifest cleanup (lines 365-398);
* `main_process` (lines 437-577) and the `__main__` wrapper (lines 580-589)
  as a function from an abstract environment to an exit code together with a
  trace of filesystem/process effects, in source order.

Durations and times are modelled as `ℚ`; the Python floats in the script are
used only for small additions, subtractions, `min`/`max` and comparisons, so
the rational model is exact on every branch condition of interest.
-/

/-- Segment record produced by `calculate_segments`: start time, end time and
duration in seconds (the source stores the dictionary
`{"start": ..., "end": ..., "duration": ...}`). -/
structure Segment where
  start : ℚ
  «end» : ℚ
  duration : ℚ
deriving DecidableEq, Repr

/-- Body of the `while current_time < total_duration` loop of
`calculate_segments` (lines 194-206), with an explicit fuel making the
recursion structural.  Each iteration clamps the segment end to
`total_duration`, drops a segment shorter than `0.01` s (breaking the loop)
and otherwise appends the segment and advances by `segment_length`. -/
def calcSegmentsAux (total_duration segment_length : ℚ) : ℕ → ℚ → List Segment
  | 0, _ => []
  | fuel + 1, current_time =>
    if current_time < total_duration then
      if min (current_time + segment_length) total_duration - current_time < 1/100 then
        []
      else
        { start := current_time,
          «end» := min (current_time + segment_length) total_duration,
          duration := min (current_time + segment_length) total_duration - current_time } ::
          calcSegmentsAux total_duration segment_length fuel (current_time + segment_length)
    else
      []

/-- Fuel sufficient for the planning loop: the loop advances by
`segment_length ≥ 1 / segment_length.den` from `0` and stops at
`total_duration ≤ total_duration.num`, so
`total_duration.num.toNat * segment_length.den + 1` iterations always
suffice. -/
def segmentFuel (total_duration segment_length : ℚ) : ℕ :=
  total_duration.num.toNat * segment_length.den + 1

/-- Embedding of `calculate_segments` (lines 188-207): returns `[]` when
`total_duration ≤ 0` or `segment_length ≤ 0`, otherwise runs the planning
loop from time `0`. -/
def calculate_segments (total_duration segment_length : ℚ) : List Segment :=
  if total_duration ≤ 0 ∨ segment_length ≤ 0 then []
  else calcSegmentsAux total_duration segment_length
    (segmentFuel total_duration segment_length) 0

/-- Embedding of `get_file_duration` (lines 164-179): try the video-stream
probe, fall back to the audio-stream probe, and return the sentinel `-1.0`
when neither yields a parseable duration.  The two probes are external
collaborators, modelled as `Option ℚ` (where `none` covers every failure
mode: missing tool, no stream, unparseable or missing duration field). -/
def get_file_duration (video_duration audio_duration : Option ℚ) : ℚ :=
  match video_duration with
  | some d => d
  | none =>
    match audio_duration with
    | some d => d
    | none => -1

/-- Tolerance used by the resume scan (line 507):
`duration_tolerance = max(0.1, expected_seg_duration * 0.02)`. -/
def duration_tolerance (expected : ℚ) : ℚ :=
  max (1/10) (expected * (2/100))

/-- Acceptance test of the resume scan (line 508): an existing artifact is
accepted exactly when `actual_seg_duration > 0` and
`abs(actual_seg_duration - expected_seg_duration) < duration_tolerance`. -/
def acceptSegment (expected actual : ℚ) : Bool :=
  decide (0 < actual ∧ |actual - expected| < duration_tolerance expected)

/-- Result of one resume scan (lines 496-518) over the abstract directory
state: the 0-based indices of the artifacts accepted into the valid prefix
(`completed_segment_paths`), the 0-based indices of the artifacts deleted as
invalid, and the final `resume_segment_idx`. -/
structure ScanResult where
  completed : List ℕ
  deleted : List ℕ
  resumeIdx : ℕ
deriving DecidableEq, Repr

/-- One iteration per remaining expected duration of the resume-scan loop
(lines 498-518), with `fs i` the probed duration of the existing artifact
for 0-based segment `i` (or `none` when the file is absent), `i` the current
0-based index and `r` the running `resume_segment_idx`.  An existing valid
artifact is recorded and scanning continues; an existing invalid artifact is
deleted and scanning stops; a missing artifact stops scanning. -/
def resumeScanGo (fs : ℕ → Option ℚ) : List ℚ → ℕ → ℕ → ScanResult
  | [], _, r => ⟨[], [], r⟩
  | expected :: rest, i, r =>
    match fs i with
    | some actual =>
      if acceptSegment expected actual then
        ⟨i :: (resumeScanGo fs rest (i + 1) (i + 1)).completed,
          (resumeScanGo fs rest (i + 1) (i + 1)).deleted,
          (resumeScanGo fs rest (i + 1) (i + 1)).resumeIdx⟩
      else
        ⟨[], [i], r⟩
    | none => ⟨[], [], r⟩

/-- Embedding of the resume scan of `main_process` (lines 496-518), run over
the expected durations of the planned segments starting at index `0` with
`resume_segment_idx = 0`. -/
def resumeScan (fs : ℕ → Option ℚ) (durations : List ℚ) : ScanResult :=
  resumeScanGo fs durations 0 0

/-- Quit-stage timeout `FFMPEG_SHUTDOWN_TIMEOUT_Q` (line 48), in seconds. -/
def FFMPEG_SHUTDOWN_TIMEOUT_Q : ℕ := 10

/-- Interrupt-stage timeout `FFMPEG_SHUTDOWN_TIMEOUT_SIG` (line 49). -/
def FFMPEG_SHUTDOWN_TIMEOUT_SIG : ℕ := 8

/-- Terminate-stage timeout `FFMPEG_SHUTDOWN_TIMEOUT_TERM` (line 50). -/
def FFMPEG_SHUTDOWN_TIMEOUT_TERM : ℕ := 5

/-- Responsiveness of the supervised process to the graceful-shutdown
ladder of `run_ffmpeg_command` (lines 256-282): whether writing the quit
token to stdin succeeds (no `OSError`/`ValueError`), and whether the
process exits within the wait timeout of each escalation stage.  In the
sequential model a wait that times out leaves the process alive at the
`poll()` check immediately after. -/
structure StopBehavior where
  quitWriteOk : Bool
  exitsOnQuit : Bool
  exitsOnInt : Bool
  exitsOnTerm : Bool
deriving DecidableEq, Repr

/-- Actions the shutdown ladder can perform, in source order: write the
quit token and wait (lines 259-264), send the interrupt signal and wait
(lines 268-273), send the terminate signal and wait (lines 276-278), kill
unconditionally (line 281). -/
inductive StopAction where
  | writeQuit
  | waitQuit
  | sigInt
  | waitInt
  | sigTerm
  | waitTerm
  | kill
deriving DecidableEq, Repr

/-- Terminate stage of the ladder (lines 276-281): send the terminate
signal, wait `FFMPEG_SHUTDOWN_TIMEOUT_TERM`, and on timeout kill. -/
def escalateTerm (b : StopBehavior) : List StopAction :=
  if b.exitsOnTerm then [StopAction.sigTerm, StopAction.waitTerm]
  else [StopAction.sigTerm, StopAction.waitTerm, StopAction.kill]

/-- Interrupt stage of the ladder (lines 268-281): send the interrupt
signal, wait `FFMPEG_SHUTDOWN_TIMEOUT_SIG`, and on timeout escalate to the
terminate stage. -/
def escalateInt (b : StopBehavior) : List StopAction :=
  if b.exitsOnInt then [StopAction.sigInt, StopAction.waitInt]
  else [StopAction.sigInt, StopAction.waitInt] ++ escalateTerm b

/-- Graceful-shutdown ladder of `run_ffmpeg_command` (lines 256-282): try
the quit token first (skipping the quit wait when the stdin write raises),
and escalate through interrupt, terminate and kill only while the previous
stage's wait timed out or failed. -/
def gracefulShutdown (b : StopBehavior) : List StopAction :=
  if b.quitWriteOk then
    if b.exitsOnQuit then [StopAction.writeQuit, StopAction.waitQuit]
    else [StopAction.writeQuit, StopAction.waitQuit] ++ escalateInt b
  else [StopAction.writeQuit] ++ escalateInt b

/-- Upper bound on the blocking time of one shutdown action: a wait blocks
at most its configured timeout, every other action is immediate. -/
def waitBound : StopAction → ℕ
  | StopAction.waitQuit => FFMPEG_SHUTDOWN_TIMEOUT_Q
  | StopAction.waitInt => FFMPEG_SHUTDOWN_TIMEOUT_SIG
  | StopAction.waitTerm => FFMPEG_SHUTDOWN_TIMEOUT_TERM
  | _ => 0

/-- Worst-case total blocking time of a sequence of shutdown actions. -/
def totalWaitBound (l : List StopAction) : ℕ :=
  (l.map waitBound).sum

/-- Boolean subsequence test, used to state that the actions actually
performed appear in the fixed ladder order. -/
def isSubseqOf : List StopAction → List StopAction → Bool
  | [], _ => true
  | _ :: _, [] => false
  | a :: as, b :: bs => if a = b then isSubseqOf as bs else isSubseqOf (a :: as) bs

/-- The full shutdown ladder in source order. -/
def shutdownLadderOrder : List StopAction :=
  [StopAction.writeQuit, StopAction.waitQuit, StopAction.sigInt, StopAction.waitInt,
    StopAction.sigTerm, StopAction.waitTerm, StopAction.kill]

/-- Abstract run of `run_ffmpeg_command` (lines 221-298): either `Popen`
raises `FileNotFoundError` (line 291), some other exception interrupts
supervision with the child alive or already exited (lines 294-298), the
force-stop flag is observed while the process is alive (lines 251-254), or
the process ends with an exit code (naturally or after a graceful stop). -/
inductive RunScenario where
  | launchNotFound
  | supervisionError (childAlive : Bool)
  | forceStopped
  | completed (exitCode : ℤ)
deriving DecidableEq, Repr

/-- Observable outcome of `run_ffmpeg_command`: the returned boolean and
whether `process.kill()` was invoked. -/
structure RunOutcome where
  success : Bool
  killedChild : Bool
deriving DecidableEq, Repr

/-- The value of `process.returncode` when `run_ffmpeg_command` returns:
`none` on the exception paths (which return `False` without consulting it),
`-9` (POSIX `-SIGKILL`) after a force-stop kill, and the process's own exit
code otherwise. -/
def exitStatusOf : RunScenario → Option ℤ
  | RunScenario.launchNotFound => none
  | RunScenario.supervisionError _ => none
  | RunScenario.forceStopped => some (-9)
  | RunScenario.completed code => some code

/-- Embedding of the outcome mapping of `run_ffmpeg_command`
(lines 221-298): `False` when the executable is missing; on any other
exception, kill the child iff it is still alive and return `False`; after a
force-stop kill, and after normal completion, return
`process.returncode == 0`. -/
def run_ffmpeg_command : RunScenario → RunOutcome
  | RunScenario.launchNotFound => ⟨false, false⟩
  | RunScenario.supervisionError alive => ⟨false, alive⟩
  | RunScenario.forceStopped => ⟨decide ((-9 : ℤ) = 0), true⟩
  | RunScenario.completed code => ⟨decide (code = 0), false⟩

/-- Outcome of the backend invocation inside `concatenate_segments`:
normal success, normal failure, or a raised exception. -/
inductive BackendResult where
  | ok
  | failed
  | raised
deriving DecidableEq, Repr

/-- Steps of `concatenate_segments` (lines 365-398) in order: write the
manifest (filelist) file, invoke the backend on it, and remove the manifest
in the `finally` block. -/
inductive ConcatStep where
  | writeManifest
  | invokeBackend
  | removeManifest
deriving DecidableEq, Repr

/-- Embedding of `concatenate_segments` (lines 365-398) over abstract
artifact identifiers: an empty list returns `False` immediately (lines
367-369) with no manifest written; otherwise the manifest is written, the
backend invoked, and the `finally` block removes the manifest whether the
invocation succeeded (`some true`), failed (`some false`) or raised
(`none`, the exception propagating). -/
def concatenate_segments (segment_files : List ℕ) (backend : BackendResult) :
    Option Bool × List ConcatStep :=
  if segment_files = [] then (some false, [])
  else
    ((match backend with
      | BackendResult.ok => some true
      | BackendResult.failed => some false
      | BackendResult.raised => none),
     [ConcatStep.writeManifest, ConcatStep.invokeBackend, ConcatStep.removeManifest])

/-- Filesystem and process effects of one `main_process` run, in source
order.  `deleteSegmentArtifact i`, `deletePartFile i`, `encode i` and
`promote i` carry the 0-based segment index. -/
inductive Effect where
  | mkdirSegmentsDir
  | writeRerunFile
  | deleteFinalOutput
  | deleteOrphanParts
  | deleteSegmentArtifact (i : ℕ)
  | deletePartFile (i : ℕ)
  | encode (i : ℕ)
  | promote (i : ℕ)
  | concatOutput
  | removeSegmentsDir
deriving DecidableEq, Repr

/-- Abstract environment of one `main_process` run: the relevant CLI flags,
the collaborators' responses (probe results, per-segment encode and rename
outcomes, concatenation outcome) and the observations of the two
cancellation flags.  `fs i` is the probed duration of the existing final
artifact for 0-based segment `i` (`none` when absent); `stopReq i` is the
value of the graceful-stop flag read at the top of loop iteration `i`
(line 525) and `stopFinal` its value at the final-outcome check
(line 554). -/
structure Env where
  overwrite : Bool
  keepSegments : Bool
  destExists : Bool
  deleteDestOk : Bool
  mkdirOk : Bool
  totalDuration : ℚ
  segmentLength : ℚ
  fs : ℕ → Option ℚ
  encodeOk : ℕ → Bool
  moveOk : ℕ → Bool
  concatOk : Bool
  stopReq : ℕ → Bool
  stopFinal : Bool

/-- Encoding loop of `main_process` (lines 524-551) from 0-based index `i`
with `n` segments left: each iteration first re-reads the graceful-stop
flag and breaks if set, then deletes any stale part file, encodes, and on
success promotes the part file to its final name; an encode failure or a
rename failure breaks the loop.  Returns the number of segments completed
by the loop and its effect trace. -/
def encodeLoop (env : Env) : ℕ → ℕ → ℕ × List Effect
  | _, 0 => (0, [])
  | i, n + 1 =>
    if env.stopReq i then (0, [])
    else if env.encodeOk i then
      if env.moveOk i then
        ((encodeLoop env (i + 1) n).1 + 1,
          Effect.deletePartFile i :: Effect.encode i :: Effect.promote i ::
            (encodeLoop env (i + 1) n).2)
      else (0, [Effect.deletePartFile i, Effect.encode i])
    else (0, [Effect.deletePartFile i, Effect.encode i])

/-- The plan computed by `main_process` (line 489). -/
def planSegs (env : Env) : List Segment :=
  calculate_segments env.totalDuration env.segmentLength

/-- Number of planned segments. -/
def planCount (env : Env) : ℕ :=
  (planSegs env).length

/-- The resume scan run by `main_process` (lines 496-518). -/
def scanOf (env : Env) : ScanResult :=
  resumeScan env.fs ((planSegs env).map Segment.duration)

/-- The encoding loop run by `main_process` (lines 524-551), starting at
`resume_segment_idx`. -/
def loopOf (env : Env) : ℕ × List Effect :=
  encodeLoop env (scanOf env).resumeIdx (planCount env - (scanOf env).resumeIdx)

/-- Final length of `completed_segment_paths`: artifacts accepted by the
resume scan plus segments completed by the encoding loop. -/
def completedCount (env : Env) : ℕ :=
  (scanOf env).completed.length + (loopOf env).1

/-- Final-outcome decision of `main_process` (lines 553-577): a pending
graceful stop exits `0`; with all segments completed, concatenate and exit
`0` on success (removing the segments directory unless `--keep-segments`)
or `1` on failure; otherwise exit `1`. -/
def finalOutcome (env : Env) (completed n : ℕ) : ℕ × List Effect :=
  if env.stopFinal then (0, [])
  else if completed = n then
    (if env.concatOk then
      (0, Effect.concatOutput ::
        (if env.keepSegments then [] else [Effect.removeSegmentsDir]))
    else (1, [Effect.concatOutput]))
  else (1, [])

/-- Effects of a run that passed the pre-run guards: the segments
directory was created (line 455), the rerun-command record written
(line 461), and, when the destination existed, the overwrite deletion
performed (line 474). -/
def preGuardTrace (env : Env) : List Effect :=
  [Effect.mkdirSegmentsDir, Effect.writeRerunFile] ++
    (if env.destExists then [Effect.deleteFinalOutput] else [])

/-- Embedding of `main_process` (lines 437-577) as exit code plus effect
trace, following the source order: create the segments directory (exit `1`
on failure, line 458), write the rerun record (line 461), validate the
probed input duration (exit `1`, line 467), handle an existing destination
(exit `0` without overwrite, line 481; exit `1` on failed deletion,
line 477), delete orphaned part files (line 484), require a nonempty plan
(exit `1`, line 492), then scan, encode and decide the final outcome. -/
def main_process (env : Env) : ℕ × List Effect :=
  if !env.mkdirOk then (1, [])
  else if env.totalDuration ≤ 0 then
    (1, [Effect.mkdirSegmentsDir, Effect.writeRerunFile])
  else if env.destExists && !env.overwrite then
    (0, [Effect.mkdirSegmentsDir, Effect.writeRerunFile])
  else if env.destExists && !env.deleteDestOk then
    (1, [Effect.mkdirSegmentsDir, Effect.writeRerunFile, Effect.deleteFinalOutput])
  else if planSegs env = [] then (1, preGuardTrace env ++ [Effect.deleteOrphanParts])
  else
    ((finalOutcome env (completedCount env) (planCount env)).1,
      preGuardTrace env ++ [Effect.deleteOrphanParts] ++
        (scanOf env).deleted.map Effect.deleteSegmentArtifact ++ (loopOf env).2 ++
        (finalOutcome env (completedCount env) (planCount env)).2)

/-- Embedding of the `__main__` wrapper (lines 580-589): an uncaught
exception exits `2`, otherwise the exit code is `main_process`'s. -/
def script_main (env : Env) (fatalError : Bool) : ℕ :=
  if fatalError then 2 else (main_process env).1

/-- The pre-run guards of `main_process` all pass: the segments directory
is creatable, the probed input duration positive, an existing destination
is deletable under an explicit overwrite request, and the plan nonempty. -/
def GuardsPass (env : Env) : Prop :=
  env.mkdirOk = true ∧ 0 < env.totalDuration ∧
    (env.destExists = true → env.overwrite = true ∧ env.deleteDestOk = true) ∧
    planSegs env ≠ []

/-- Environment of a fault-free full run on the 12 s / 5 s example: empty
segments directory, destination absent, every encode and rename succeeds,
concatenation succeeds, no stop is ever requested. -/
def envAllGood : Env where
  overwrite := false
  keepSegments := false
  destExists := false
  deleteDestOk := true
  mkdirOk := true
  totalDuration := 12
  segmentLength := 5
  fs := fun _ => none
  encodeOk := fun _ => true
  moveOk := fun _ => true
  concatOk := true
  stopReq := fun _ => false
  stopFinal := false

/-- Resume example on the 12 s / 5 s plan: the artifact for segment 1
(0-based 0) exists with a correct 5 s probed duration, the artifact for
segment 2 (0-based 1) exists but probes to 1 s (truncated), nothing else
exists. -/
def envResumeExample : Env :=
  { envAllGood with fs := fun i => if i = 0 then some 5 else if i = 1 then some 1 else none }

/-- Environment where the final destination already exists, no overwrite
was requested, and the input probes fine. -/
def envDestExistsNoOverwrite : Env :=
  { envAllGood with destExists := true }

/-- Fault-injection environment on the 12 s / 5 s plan: segments 1 and 2
(0-based 0 and 1) encode fine, segment 3 (0-based 2) fails; no stop is ever
requested. -/
def envSegmentFail : Env :=
  { envAllGood with encodeOk := fun i => decide (i < 2) }

/-- Evaluation helper for concrete plans: unfolds the planner on numerals. -/
theorem calculate_segments_twelve_five :
    calculate_segments 12 5 = [⟨0, 5, 5⟩, ⟨5, 10, 5⟩, ⟨10, 12, 2⟩] := by
  norm_num [calculate_segments, calcSegmentsAux, segmentFuel]

/-- The planning loop body returns `[]` as soon as the loop condition
`current_time < total_duration` fails, whatever fuel remains. -/
theorem calcSegmentsAux_of_not_lt (t s : ℚ) (fuel : ℕ) (c : ℚ) (h : ¬ c < t) :
    calcSegmentsAux t s fuel c = [] := by
  cases fuel with
  | zero => rfl
  | succ n => simp [calcSegmentsAux, h]

/-- Structural invariants of the planning loop, proved by induction on the
fuel.  Under the (provable) hypothesis that the fuel covers the remaining
time, the produced list is contiguous, every segment is at least `0.01` s
long with `duration = end - start` and `end ≤ total`, the head (if any)
starts at the current time, the last segment (if any) either ends at `total`
or ends less than `0.01` s before it, and the list is empty only when the
very first candidate segment was dropped as shorter than `0.01` s. -/
theorem calcSegmentsAux_spec (t s : ℚ) (fuel : ℕ) :
    ∀ c : ℚ, c < t → t - c ≤ fuel * s →
      List.Chain' (fun a b => a.«end» = b.start) (calcSegmentsAux t s fuel c) ∧
      (∀ seg ∈ calcSegmentsAux t s fuel c,
        1/100 ≤ seg.duration ∧ seg.duration = seg.«end» - seg.start ∧ seg.«end» ≤ t) ∧
      (∀ seg, (calcSegmentsAux t s fuel c).head? = some seg → seg.start = c) ∧
      (∀ seg, (calcSegmentsAux t s fuel c).getLast? = some seg →
        seg.«end» = t ∨ (seg.«end» < t ∧ t - seg.«end» < 1/100)) ∧
      (calcSegmentsAux t s fuel c = [] → min (c + s) t - c < 1/100) := by
  induction fuel with
  | zero =>
    intro c hct hfl
    exfalso
    simp only [Nat.cast_zero, zero_mul] at hfl
    linarith
  | succ n ih =>
    intro c hct hfl
    by_cases hd : min (c + s) t - c < 1/100
    · have hnil : calcSegmentsAux t s (n + 1) c = [] := by
        simp only [calcSegmentsAux, if_pos hct, if_pos hd]
      rw [hnil]
      exact ⟨List.chain'_nil, by simp, by simp, by simp, fun _ => hd⟩
    · push_neg at hd
      by_cases hlt : c + s < t
      · have hmin : min (c + s) t = c + s := min_eq_left (le_of_lt hlt)
        have hsge : 1/100 ≤ s := by rw [hmin] at hd; linarith
        have hfl' : t - (c + s) ≤ (n : ℚ) * s := by push_cast at hfl ⊢; linarith
        obtain ⟨ih1, ih2, ih3, ih4, ih5⟩ := ih (c + s) hlt hfl'
        have hd0 : (1:ℚ)/100 ≤ c + s - c := by rw [hmin] at hd; linarith
        have hcons : calcSegmentsAux t s (n + 1) c =
            ⟨c, c + s, c + s - c⟩ :: calcSegmentsAux t s n (c + s) := by
          simp only [calcSegmentsAux, if_pos hct, hmin, if_neg (not_lt.mpr hd0)]
        rw [hcons]
        refine ⟨?_, ?_, ?_, ?_, ?_⟩
        · rw [List.chain'_cons']
          exact ⟨fun b hb => (ih3 b hb).symm, ih1⟩
        · intro seg hseg
          rcases List.mem_cons.mp hseg with h | h
          · subst h
            exact ⟨hd0, rfl, le_of_lt hlt⟩
          · exact ih2 seg h
        · intro seg hseg
          rw [List.head?_cons] at hseg
          rw [← Option.some.inj hseg]
        · intro seg hseg
          rcases hrest : calcSegmentsAux t s n (c + s) with _ | ⟨b, bs⟩
          · rw [hrest, List.getLast?_singleton] at hseg
            rw [← Option.some.inj hseg]
            right
            refine ⟨hlt, ?_⟩
            have h5 := ih5 hrest
            rcases le_or_lt (c + s + s) t with hle | hgt
            · rw [min_eq_left hle] at h5; linarith
            · rw [min_eq_right (le_of_lt hgt)] at h5; linarith
          · rw [hrest, List.getLast?_cons_cons] at hseg
            exact ih4 seg (by rw [hrest]; exact hseg)
        · intro h
          exact absurd h (List.cons_ne_nil _ _)
      · have hmin : min (c + s) t = t := min_eq_right (le_of_not_lt hlt)
        have hrest : calcSegmentsAux t s n (c + s) = [] :=
          calcSegmentsAux_of_not_lt t s n (c + s) hlt
        have hd0 : (1:ℚ)/100 ≤ t - c := by rw [hmin] at hd; linarith
        have hcons : calcSegmentsAux t s (n + 1) c =
            [⟨c, t, t - c⟩] := by
          simp only [calcSegmentsAux, if_pos hct, hmin, if_neg (not_lt.mpr hd0), hrest]
        rw [hcons]
        refine ⟨List.chain'_singleton _, ?_, ?_, ?_, ?_⟩
        · intro seg hseg
          rw [List.mem_singleton] at hseg
          subst hseg
          exact ⟨hd0, rfl, le_refl t⟩
        · intro seg hseg
          rw [List.head?_cons] at hseg
          rw [← Option.some.inj hseg]
        · intro seg hseg
          rw [List.getLast?_singleton] at hseg
          rw [← Option.some.inj hseg]
          exact Or.inl rfl
        · intro h
          exact absurd h (List.cons_ne_nil _ _)

/-- The chosen fuel covers the whole duration: the loop never runs out of
fuel before reaching `total_duration`. -/
theorem segmentFuel_sufficient (t s : ℚ) (ht : 0 < t) (hs : 0 < s) :
    t - 0 ≤ (segmentFuel t s : ℚ) * s := by
  have hnum : 0 < s.num := Rat.num_pos.mpr hs
  have htnum : 0 < t.num := Rat.num_pos.mpr ht
  have hdpos : (0 : ℚ) < (s.den : ℚ) := by exact_mod_cast s.den_pos
  have h1 : (s.den : ℚ) * s = (s.num : ℚ) := by
    have h := Rat.num_div_den s
    rw [div_eq_iff (ne_of_gt hdpos)] at h
    rw [mul_comm]
    exact h.symm
  have h2 : (1 : ℚ) ≤ (s.den : ℚ) * s := by
    rw [h1]; exact_mod_cast hnum
  have h3 : t ≤ (t.num : ℚ) := by
    conv_lhs => rw [← Rat.num_div_den t]
    exact div_le_self (by exact_mod_cast le_of_lt htnum) (by exact_mod_cast t.den_pos)
  have h4 : (t.num : ℚ) = ((t.num.toNat : ℕ) : ℚ) := by
    exact_mod_cast (Int.toNat_of_nonneg (le_of_lt htnum)).symm
  have h5 : ((t.num.toNat : ℕ) : ℚ) * 1 ≤ ((t.num.toNat : ℕ) : ℚ) * ((s.den : ℚ) * s) :=
    mul_le_mul_of_nonneg_left h2 (by positivity)
  simp only [segmentFuel]
  push_cast
  nlinarith [h3, h4, h5, hs]

/-- Contiguity plus positive length yields strictly increasing start times. -/
theorem chain_start_lt_of_chain_eq :
    ∀ l : List Segment, List.Chain' (fun a b => a.«end» = b.start) l →
      (∀ seg ∈ l, seg.start < seg.«end») →
      List.Chain' (fun a b => a.start < b.start) l := by
  intro l
  induction l with
  | nil => intro _ _; exact List.chain'_nil
  | cons a t iht =>
    intro h1 h2
    cases t with
    | nil => exact List.chain'_singleton a
    | cons b t' =>
      rw [List.chain'_cons] at h1 ⊢
      refine ⟨?_, iht h1.2 fun seg hseg => h2 seg (List.mem_cons_of_mem a hseg)⟩
      have ha := h2 a (List.mem_cons_self a _)
      rw [h1.1] at ha
      exact ha

/-- C1: for every `total_duration > 0` and `segment_length > 0` the planned
segments are contiguous and gapless (each end equals the next start), start
times are strictly increasing with `start < end` and
`duration = end - start` in every segment, a nonempty plan starts at `0`,
the last planned segment either ends exactly at `total_duration` or ends
less than the `0.01` s drop threshold before it (the dropped trailing
segment), the plan is empty only when even the first candidate segment is
below the threshold, and in particular `calculate_segments 12 5` is exactly
`[0,5), [5,10), [10,12)` with last duration `2`. -/
theorem calculate_segments_plan_spec (total_duration segment_length : ℚ)
    (ht : 0 < total_duration) (hs : 0 < segment_length) :
    List.Chain' (fun a b => a.«end» = b.start)
      (calculate_segments total_duration segment_length) ∧
    List.Chain' (fun a b => a.start < b.start)
      (calculate_segments total_duration segment_length) ∧
    (∀ seg ∈ calculate_segments total_duration segment_length,
      seg.start < seg.«end» ∧ seg.duration = seg.«end» - seg.start ∧
        seg.«end» ≤ total_duration) ∧
    (∀ seg, (calculate_segments total_duration segment_length).head? = some seg →
      seg.start = 0) ∧
    (∀ seg, (calculate_segments total_duration segment_length).getLast? = some seg →
      seg.«end» = total_duration ∨
        (seg.«end» < total_duration ∧ total_duration - seg.«end» < 1/100)) ∧
    (calculate_segments total_duration segment_length = [] →
      min segment_length total_duration < 1/100) ∧
    calculate_segments 12 5 = [⟨0, 5, 5⟩, ⟨5, 10, 5⟩, ⟨10, 12, 2⟩] := by
  have hne : ¬ (total_duration ≤ 0 ∨ segment_length ≤ 0) := by
    push_neg
    exact ⟨ht, hs⟩
  have hunfold : calculate_segments total_duration segment_length =
      calcSegmentsAux total_duration segment_length
        (segmentFuel total_duration segment_length) 0 := by
    rw [calculate_segments, if_neg hne]
  obtain ⟨h1, h2, h3, h4, h5⟩ :=
    calcSegmentsAux_spec total_duration segment_length
      (segmentFuel total_duration segment_length) 0 ht
      (segmentFuel_sufficient total_duration segment_length ht hs)
  rw [hunfold]
  have hlt : ∀ seg ∈ calcSegmentsAux total_duration segment_length
      (segmentFuel total_duration segment_length) 0,
      seg.start < seg.«end» := by
    intro seg hseg
    obtain ⟨hd, he, _⟩ := h2 seg hseg
    rw [he] at hd
    linarith
  refine ⟨h1, chain_start_lt_of_chain_eq _ h1 hlt, ?_, h3, h4, ?_,
    calculate_segments_twelve_five⟩
  · intro seg hseg
    obtain ⟨hd, he, hend⟩ := h2 seg hseg
    exact ⟨hlt seg hseg, he, hend⟩
  · intro hnil
    have h := h5 hnil
    rw [zero_add] at h
    linarith [h]

/-- Witness for `calculate_segments_plan_spec` at `total_duration = 12`,
`segment_length = 5`. -/
theorem calculate_segments_plan_spec_witness :
    List.Chain' (fun a b => a.«end» = b.start) (calculate_segments 12 5) ∧
    List.Chain' (fun a b => a.start < b.start) (calculate_segments 12 5) ∧
    (∀ seg ∈ calculate_segments 12 5,
      seg.start < seg.«end» ∧ seg.duration = seg.«end» - seg.start ∧
        seg.«end» ≤ 12) ∧
    (∀ seg, (calculate_segments 12 5).head? = some seg → seg.start = 0) ∧
    (∀ seg, (calculate_segments 12 5).getLast? = some seg →
      seg.«end» = 12 ∨ (seg.«end» < 12 ∧ 12 - seg.«end» < 1/100)) ∧
    (calculate_segments 12 5 = [] → min (5:ℚ) 12 < 1/100) ∧
    calculate_segments 12 5 = [⟨0, 5, 5⟩, ⟨5, 10, 5⟩, ⟨10, 12, 2⟩] :=
  calculate_segments_plan_spec 12 5 (by norm_num) (by norm_num)

/-- C3 (amended): an examined artifact is accepted exactly when its probed
duration is positive and within the `max(0.1, expected * 0.02)` tolerance;
it is rejected whenever the difference reaches the tolerance — in
particular a difference of exactly the tolerance boundary is rejected — and
also whenever the probed duration is not strictly positive. -/
theorem acceptSegment_spec (e a : ℚ) :
    (acceptSegment e a = true ↔ (0 < a ∧ |a - e| < max (1/10) (e * (2/100)))) ∧
    (max (1/10) (e * (2/100)) ≤ |a - e| → acceptSegment e a = false) ∧
    (|a - e| = max (1/10) (e * (2/100)) → acceptSegment e a = false) := by
  refine ⟨by simp [acceptSegment, duration_tolerance], ?_, ?_⟩
  · intro h
    simp only [acceptSegment, duration_tolerance, decide_eq_false_iff_not]
    intro hcontra
    exact absurd hcontra.2 (not_lt.mpr h)
  · intro h
    simp only [acceptSegment, duration_tolerance, decide_eq_false_iff_not]
    intro hcontra
    exact absurd hcontra.2 (not_lt.mpr (le_of_eq h.symm))

/-- Witness for `acceptSegment_spec`: at `expected = 5`, a probed duration
of `5.05` is accepted (difference `0.05 < 0.1`) while a probed duration of
`5.1` sits exactly on the tolerance boundary and is rejected. -/
theorem acceptSegment_spec_witness :
    acceptSegment 5 (505/100) = true ∧
    (|(51/10 : ℚ) - 5| = max (1/10) (5 * (2/100))) ∧
    acceptSegment 5 (51/10) = false := by
  refine ⟨?_, ?_, ?_⟩
  · exact (acceptSegment_spec 5 (505/100)).1.mpr (by norm_num [abs_sub_lt_iff, abs_of_nonneg])
  · rw [show |(51/10 : ℚ) - 5| = 1/10 by norm_num [abs_of_nonneg]]
    norm_num
  · exact (acceptSegment_spec 5 (51/10)).2.2
      (by rw [show |(51/10 : ℚ) - 5| = 1/10 by norm_num [abs_of_nonneg]]; norm_num)

/-- C3 counterexample: the claim's acceptance criterion
"accepted exactly when `|actual - expected| < max(0.1, expected * 0.02)`"
is false on the code: with expected duration `0.05` s (a legal tail-segment
duration, above the `0.01` s planning threshold) and probed duration `0`,
the difference `0.05` is strictly inside the tolerance `0.1`, yet the scan
rejects the artifact because the probed duration is not positive. -/
theorem acceptSegment_claim_counterexample :
    ¬ (acceptSegment (1/20) 0 = true ↔
        |(0:ℚ) - 1/20| < max (1/10) ((1/20) * (2/100))) := by
  intro h
  have habs : |(0:ℚ) - 1/20| = 1/20 := by norm_num [abs_of_nonpos]
  have htol : max ((1:ℚ)/10) ((1/20) * (2/100)) = 1/10 := by norm_num
  have h2 : acceptSegment (1/20) 0 = true := by
    rw [h, habs, htol]
    norm_num
  have h3 : acceptSegment (1/20) 0 = false := by
    simp only [acceptSegment, decide_eq_false_iff_not]
    intro hcontra
    exact absurd hcontra.1 (by norm_num)
  rw [h2] at h3
  exact Bool.noConfusion h3

/-- C10: the resume scan rejects any existing artifact whose probed duration
is not strictly positive — including one within tolerance of the expected
duration, and including the `-1.0` sentinel produced by `get_file_duration`
when neither the video nor the audio probe yields a duration — and
acceptance always implies a strictly positive probed duration on top of the
tolerance condition. -/
theorem acceptSegment_requires_positive (e a : ℚ) :
    (a ≤ 0 → acceptSegment e a = false) ∧
    (acceptSegment e a = true → 0 < a ∧ |a - e| < duration_tolerance e) ∧
    acceptSegment e (get_file_duration none none) = false := by
  refine ⟨?_, ?_, ?_⟩
  · intro ha
    simp only [acceptSegment, decide_eq_false_iff_not]
    intro hcontra
    exact absurd hcontra.1 (not_lt.mpr ha)
  · intro h
    simpa [acceptSegment] using h
  · simp only [get_file_duration, acceptSegment, decide_eq_false_iff_not]
    intro hcontra
    have := hcontra.1
    norm_num at this

/-- Witness for `acceptSegment_requires_positive` at `expected = 0.05`,
`actual = 0`: the difference `0.05` is within the `0.1` tolerance yet the
artifact is rejected. -/
theorem acceptSegment_requires_positive_witness :
    ((0:ℚ) ≤ 0 ∧ acceptSegment (1/20) 0 = false) ∧
    |(0:ℚ) - 1/20| < duration_tolerance (1/20) :=
  ⟨⟨le_refl 0, (acceptSegment_requires_positive (1/20) 0).1 (le_refl 0)⟩,
    by norm_num [duration_tolerance, abs_of_nonpos]⟩

/-- Characterization of the resume-scan loop when the first `K` artifacts
(relative to offset `i`) exist and are valid and the `(K+1)`-th exists but
is invalid: the accepted prefix is exactly the `K` valid indices, exactly
the invalid artifact is deleted, and the resume index lands on it. -/
theorem resumeScanGo_char (fs : ℕ → Option ℚ) :
    ∀ (ds : List ℚ) (i K : ℕ), K < ds.length →
      (∀ j, j < K → ∃ a, fs (i + j) = some a ∧
        ∃ e, ds.get? j = some e ∧ acceptSegment e a = true) →
      (∃ a, fs (i + K) = some a ∧
        ∃ e, ds.get? K = some e ∧ acceptSegment e a = false) →
      resumeScanGo fs ds i i = ⟨(List.range K).map (i + ·), [i + K], i + K⟩ := by
  intro ds
  induction ds with
  | nil =>
    intro i K hK _ _
    exact absurd hK (by simp)
  | cons e rest ih =>
    intro i K hK hvalid hbad
    cases K with
    | zero =>
      obtain ⟨a, hfsa, e', he', hacc⟩ := hbad
      rw [Nat.add_zero] at hfsa
      rw [List.get?_cons_zero] at he'
      rw [show e' = e from (Option.some.inj he').symm] at hacc
      have hres : resumeScanGo fs (e :: rest) i i = ⟨[], [i], i⟩ := by
        simp only [resumeScanGo, hfsa, hacc]
        simp
      rw [hres]
      simp
    | succ Kp =>
      obtain ⟨a0, hfs0, e0, he0, hacc0⟩ := hvalid 0 (Nat.succ_pos Kp)
      rw [Nat.add_zero] at hfs0
      rw [List.get?_cons_zero] at he0
      rw [show e0 = e from (Option.some.inj he0).symm] at hacc0
      have hstep : resumeScanGo fs (e :: rest) i i =
          ⟨i :: (resumeScanGo fs rest (i + 1) (i + 1)).completed,
            (resumeScanGo fs rest (i + 1) (i + 1)).deleted,
            (resumeScanGo fs rest (i + 1) (i + 1)).resumeIdx⟩ := by
        simp only [resumeScanGo, hfs0, hacc0]
        simp
      have hvalid' : ∀ j, j < Kp → ∃ a, fs (i + 1 + j) = some a ∧
          ∃ e1, rest.get? j = some e1 ∧ acceptSegment e1 a = true := by
        intro j hj
        obtain ⟨a, ha, e1, he1, hacc⟩ := hvalid (j + 1) (Nat.succ_lt_succ hj)
        refine ⟨a, ?_, e1, ?_, hacc⟩
        · rw [show i + 1 + j = i + (j + 1) by omega]
          exact ha
        · rw [List.get?_cons_succ] at he1
          exact he1
      have hbad' : ∃ a, fs (i + 1 + Kp) = some a ∧
          ∃ e1, rest.get? Kp = some e1 ∧ acceptSegment e1 a = false := by
        obtain ⟨a, ha, e1, he1, hacc⟩ := hbad
        refine ⟨a, ?_, e1, ?_, hacc⟩
        · rw [show i + 1 + Kp = i + (Kp + 1) by omega]
          exact ha
        · rw [List.get?_cons_succ] at he1
          exact he1
      have hrec := ih (i + 1) Kp (by simp only [List.length_cons] at hK; omega) hvalid' hbad'
      rw [hstep, hrec]
      have harith : i + 1 + Kp = i + (Kp + 1) := by omega
      rw [harith]
      simp only [ScanResult.mk.injEq]
      refine ⟨?_, trivial, trivial⟩
      rw [List.range_succ_eq_map]
      simp only [List.map_cons, Nat.add_zero, List.map_map]
      refine congrArg (List.cons i) (List.map_congr_left ?_)
      intro a _
      simp only [Function.comp_apply]
      omega

/-- Specialization of `resumeScanGo_char` to a full scan from index `0`. -/
theorem resumeScan_char (fs : ℕ → Option ℚ) (ds : List ℚ) (K : ℕ)
    (hK : K < ds.length)
    (hvalid : ∀ j, j < K → ∃ a, fs j = some a ∧
      ∃ e, ds.get? j = some e ∧ acceptSegment e a = true)
    (hbad : ∃ a, fs K = some a ∧ ∃ e, ds.get? K = some e ∧ acceptSegment e a = false) :
    resumeScan fs ds = ⟨List.range K, [K], K⟩ := by
  have h := resumeScanGo_char fs ds 0 K hK
    (by intro j hj; simpa using hvalid j hj) (by simpa using hbad)
  rw [resumeScan, h]
  simp

/-- Shape of any resume scan started with `resume_segment_idx = i` at index
`i`: the accepted prefix has some length `k ≤ |ds|` and the resume index is
`i + k`. -/
theorem resumeScanGo_shape (fs : ℕ → Option ℚ) :
    ∀ (ds : List ℚ) (i : ℕ), ∃ k, k ≤ ds.length ∧
      (resumeScanGo fs ds i i).completed.length = k ∧
      (resumeScanGo fs ds i i).resumeIdx = i + k := by
  intro ds
  induction ds with
  | nil =>
    intro i
    exact ⟨0, by simp [resumeScanGo]⟩
  | cons e rest ih =>
    intro i
    cases hfs : fs i with
    | none =>
      refine ⟨0, ?_⟩
      simp [resumeScanGo, hfs]
    | some a =>
      cases hacc : acceptSegment e a with
      | false =>
        refine ⟨0, ?_⟩
        simp [resumeScanGo, hfs, hacc]
      | true =>
        obtain ⟨k, hk, hlen, hidx⟩ := ih (i + 1)
        refine ⟨k + 1, ?_, ?_, ?_⟩
        · simp only [List.length_cons]
          omega
        · simp only [resumeScanGo, hfs, hacc, if_true, List.length_cons, hlen]
        · simp only [resumeScanGo, hfs, hacc, if_true, hidx]
          omega

/-- The final `resume_segment_idx` of a scan from `0` equals the number of
accepted artifacts, which never exceeds the number of planned segments. -/
theorem resumeScan_resumeIdx_eq (fs : ℕ → Option ℚ) (ds : List ℚ) :
    (resumeScan fs ds).resumeIdx = (resumeScan fs ds).completed.length ∧
    (resumeScan fs ds).completed.length ≤ ds.length := by
  obtain ⟨k, hk, hlen, hidx⟩ := resumeScanGo_shape fs ds 0
  constructor
  · rw [resumeScan, hidx, hlen]
    omega
  · rw [resumeScan, hlen]
    exact hk

/-- The encoding loop never performs the concatenation. -/
theorem encodeLoop_no_concat (env : Env) :
    ∀ n i : ℕ, Effect.concatOutput ∉ (encodeLoop env i n).2 := by
  intro n
  induction n with
  | zero =>
    intro i
    simp [encodeLoop]
  | succ m ih =>
    intro i
    cases hstop : env.stopReq i with
    | true => simp [encodeLoop, hstop]
    | false =>
      cases henc : env.encodeOk i with
      | false => simp [encodeLoop, hstop, henc]
      | true =>
        cases hmov : env.moveOk i with
        | false => simp [encodeLoop, hstop, henc, hmov]
        | true =>
          simp only [encodeLoop, hstop, henc, hmov, if_true, if_false,
            Bool.false_eq_true, List.mem_cons]
          push_neg
          exact ⟨by simp, by simp, by simp, ih (i + 1)⟩

/-- A loop iteration whose top-of-loop stop check fails starts by deleting
the stale part file and encoding the current segment. -/
theorem encodeLoop_first_actions (env : Env) (i n : ℕ)
    (h : env.stopReq i = false) :
    ∃ t, (encodeLoop env i (n + 1)).2 =
      Effect.deletePartFile i :: Effect.encode i :: t := by
  cases henc : env.encodeOk i with
  | false => exact ⟨[], by simp [encodeLoop, h, henc]⟩
  | true =>
    cases hmov : env.moveOk i with
    | false => exact ⟨[], by simp [encodeLoop, h, henc, hmov]⟩
    | true =>
      exact ⟨Effect.promote i :: (encodeLoop env (i + 1) n).2,
        by simp [encodeLoop, h, henc, hmov]⟩

/-- With no stop request, the loop started at `i` with the first failing
segment at `j` (all earlier ones encode and rename successfully) completes
exactly the segments `i, ..., j-1`. -/
theorem encodeLoop_count_first_fail (env : Env)
    (hstop : ∀ i, env.stopReq i = false) :
    ∀ n i j : ℕ, i ≤ j → j < i + n →
      (∀ k, i ≤ k → k < j → env.encodeOk k = true ∧ env.moveOk k = true) →
      (env.encodeOk j = false ∨ env.moveOk j = false) →
      (encodeLoop env i n).1 = j - i := by
  intro n
  induction n with
  | zero =>
    intro i j h1 h2 _ _
    omega
  | succ m ih =>
    intro i j h1 h2 hok hfail
    rcases eq_or_lt_of_le h1 with rfl | hlt
    · rcases hfail with hf | hf
      · simp [encodeLoop, hstop i, hf, Nat.sub_self]
      · cases henc : env.encodeOk i with
        | false => simp [encodeLoop, hstop i, henc, Nat.sub_self]
        | true => simp [encodeLoop, hstop i, henc, hf, Nat.sub_self]
    · obtain ⟨he, hm⟩ := hok i (le_refl i) hlt
      have hrec := ih (i + 1) j hlt (by omega)
        (fun k hk1 hk2 => hok k (by omega) hk2) hfail
      simp only [encodeLoop, hstop i, he, hm, if_true, if_false,
        Bool.false_eq_true, hrec]
      omega

/-- With no stop request and every remaining segment encoding and renaming
successfully, the loop completes all `n` remaining segments. -/
theorem encodeLoop_count_all_ok (env : Env)
    (hstop : ∀ i, env.stopReq i = false) :
    ∀ n i : ℕ,
      (∀ k, i ≤ k → k < i + n → env.encodeOk k = true ∧ env.moveOk k = true) →
      (encodeLoop env i n).1 = n := by
  intro n
  induction n with
  | zero =>
    intro i _
    simp [encodeLoop]
  | succ m ih =>
    intro i hok
    obtain ⟨he, hm⟩ := hok i (le_refl i) (by omega)
    have hrec := ih (i + 1) (fun k hk1 hk2 => hok k (by omega) (by omega))
    simp only [encodeLoop, hstop i, he, hm, if_true, if_false,
      Bool.false_eq_true, hrec]

/-- C2: if the first `K` planned segments have valid artifacts on disk and
the `(K+1)`-th artifact exists but is invalid, then the resume scan accepts
exactly segments `0..K-1`, deletes exactly the `(K+1)`-th artifact
(0-based `K`), lands the resume index on `K`, never examines any index
beyond `K` (its result is unchanged under any modification of the directory
state strictly past `K`), and the encoding loop's first actions re-encode
segment `K`. -/
theorem resume_scan_resume_spec (env : Env) (K : ℕ)
    (hK : K < planCount env)
    (hvalid : ∀ j, j < K → ∃ a, env.fs j = some a ∧
      ∃ e, ((planSegs env).map Segment.duration).get? j = some e ∧
        acceptSegment e a = true)
    (hbad : ∃ a, env.fs K = some a ∧
      ∃ e, ((planSegs env).map Segment.duration).get? K = some e ∧
        acceptSegment e a = false) :
    scanOf env = ⟨List.range K, [K], K⟩ ∧
    (∀ fs2 : ℕ → Option ℚ, (∀ i, i ≤ K → fs2 i = env.fs i) →
      resumeScan fs2 ((planSegs env).map Segment.duration) =
        ⟨List.range K, [K], K⟩) ∧
    (env.stopReq K = false →
      ∃ t, (loopOf env).2 = Effect.deletePartFile K :: Effect.encode K :: t) := by
  have hlen : ((planSegs env).map Segment.duration).length = planCount env := by
    rw [List.length_map, planCount]
  have h1 : scanOf env = ⟨List.range K, [K], K⟩ := by
    rw [scanOf]
    exact resumeScan_char env.fs _ K (by rw [hlen]; exact hK) hvalid hbad
  refine ⟨h1, ?_, ?_⟩
  · intro fs2 hagree
    apply resumeScan_char fs2 _ K (by rw [hlen]; exact hK)
    · intro j hj
      obtain ⟨a, ha, rest⟩ := hvalid j hj
      exact ⟨a, by rw [hagree j (by omega)]; exact ha, rest⟩
    · obtain ⟨a, ha, rest⟩ := hbad
      exact ⟨a, by rw [hagree K (le_refl K)]; exact ha, rest⟩
  · intro hstopK
    rw [loopOf, h1]
    obtain ⟨m, hm⟩ : ∃ m, planCount env - K = m + 1 :=
      ⟨planCount env - K - 1, by omega⟩
    rw [hm]
    exact encodeLoop_first_actions env K m hstopK

/-- Witness for `resume_scan_resume_spec` on `envResumeExample` with
`K = 1`: artifact 1 is accepted, artifact 2 is deleted, the scan result is
independent of indices past 1, and the loop restarts at segment 2. -/
theorem resume_scan_resume_spec_witness :
    scanOf envResumeExample = ⟨List.range 1, [1], 1⟩ ∧
    (∀ fs2 : ℕ → Option ℚ, (∀ i, i ≤ 1 → fs2 i = envResumeExample.fs i) →
      resumeScan fs2 ((planSegs envResumeExample).map Segment.duration) =
        ⟨List.range 1, [1], 1⟩) ∧
    (envResumeExample.stopReq 1 = false →
      ∃ t, (loopOf envResumeExample).2 =
        Effect.deletePartFile 1 :: Effect.encode 1 :: t) := by
  have hplan : planSegs envResumeExample = [⟨0, 5, 5⟩, ⟨5, 10, 5⟩, ⟨10, 12, 2⟩] := by
    rw [planSegs]
    exact calculate_segments_twelve_five
  apply resume_scan_resume_spec envResumeExample 1
  · rw [planCount, hplan]
    norm_num
  · intro j hj
    have hj0 : j = 0 := by omega
    subst hj0
    refine ⟨5, rfl, 5, by rw [hplan]; rfl, ?_⟩
    rw [acceptSegment, decide_eq_true_iff]
    norm_num [duration_tolerance]
  · refine ⟨1, rfl, 5, by rw [hplan]; rfl, ?_⟩
    rw [acceptSegment, decide_eq_false_iff_not]
    intro hcontra
    rw [show |(1:ℚ) - 5| = 4 by norm_num [abs_of_nonpos]] at hcontra
    have := hcontra.2
    rw [duration_tolerance] at this
    norm_num at this

/-- C4: on a graceful stop with the process alive, the shutdown actions
follow the fixed ladder order quit-token, interrupt, terminate, kill; the
interrupt stage is attempted iff the quit stage's write failed or its wait
timed out, the terminate stage additionally requires the interrupt wait to
time out, and the kill additionally requires the terminate wait to time
out — so if every wait times out the unconditional kill is reached — and
the total blocking time never exceeds the sum of the three configured
stage timeouts. -/
theorem shutdown_ladder_spec (b : StopBehavior) :
    isSubseqOf (gracefulShutdown b) shutdownLadderOrder = true ∧
    (StopAction.sigInt ∈ gracefulShutdown b ↔
      (b.quitWriteOk = false ∨ b.exitsOnQuit = false)) ∧
    (StopAction.sigTerm ∈ gracefulShutdown b ↔
      ((b.quitWriteOk = false ∨ b.exitsOnQuit = false) ∧ b.exitsOnInt = false)) ∧
    (StopAction.kill ∈ gracefulShutdown b ↔
      ((b.quitWriteOk = false ∨ b.exitsOnQuit = false) ∧ b.exitsOnInt = false ∧
        b.exitsOnTerm = false)) ∧
    totalWaitBound (gracefulShutdown b) ≤
      FFMPEG_SHUTDOWN_TIMEOUT_Q + FFMPEG_SHUTDOWN_TIMEOUT_SIG +
        FFMPEG_SHUTDOWN_TIMEOUT_TERM := by
  obtain ⟨q, e1, e2, e3⟩ := b
  cases q <;> cases e1 <;> cases e2 <;> cases e3 <;> decide

/-- Witness for `shutdown_ladder_spec` at the fully non-responsive
behavior: the quit token is written but every wait times out, so the
ladder runs to the unconditional kill within the summed timeouts. -/
theorem shutdown_ladder_spec_witness :
    isSubseqOf (gracefulShutdown ⟨true, false, false, false⟩)
      shutdownLadderOrder = true ∧
    (StopAction.sigInt ∈ gracefulShutdown ⟨true, false, false, false⟩ ↔
      ((true : Bool) = false ∨ (false : Bool) = false)) ∧
    (StopAction.sigTerm ∈ gracefulShutdown ⟨true, false, false, false⟩ ↔
      (((true : Bool) = false ∨ (false : Bool) = false) ∧ (false : Bool) = false)) ∧
    (StopAction.kill ∈ gracefulShutdown ⟨true, false, false, false⟩ ↔
      (((true : Bool) = false ∨ (false : Bool) = false) ∧ (false : Bool) = false ∧
        (false : Bool) = false)) ∧
    totalWaitBound (gracefulShutdown ⟨true, false, false, false⟩) ≤
      FFMPEG_SHUTDOWN_TIMEOUT_Q + FFMPEG_SHUTDOWN_TIMEOUT_SIG +
        FFMPEG_SHUTDOWN_TIMEOUT_TERM :=
  shutdown_ladder_spec ⟨true, false, false, false⟩

/-- C5: `run_ffmpeg_command` reports success exactly when the supervised
process's exit status is zero and the run was not short-circuited by a
force-stop; a missing executable reports failure without any child to
kill; any other supervision exception reports failure and kills the child
exactly when it is still alive; a force-stop kills the child and reports
failure. -/
theorem run_ffmpeg_success_iff :
    (∀ s : RunScenario, (run_ffmpeg_command s).success = true ↔
      (exitStatusOf s = some 0 ∧ s ≠ RunScenario.forceStopped)) ∧
    run_ffmpeg_command RunScenario.launchNotFound = ⟨false, false⟩ ∧
    (∀ alive : Bool, run_ffmpeg_command (RunScenario.supervisionError alive) =
      ⟨false, alive⟩) ∧
    run_ffmpeg_command RunScenario.forceStopped = ⟨false, true⟩ := by
  refine ⟨?_, rfl, fun alive => rfl, ?_⟩
  · intro s
    cases s with
    | launchNotFound => simp [run_ffmpeg_command, exitStatusOf]
    | supervisionError alive => simp [run_ffmpeg_command, exitStatusOf]
    | forceStopped =>
      simp only [run_ffmpeg_command, exitStatusOf, decide_eq_true_iff]
      norm_num
    | completed code =>
      simp [run_ffmpeg_command, exitStatusOf, decide_eq_true_iff]
  · simp [run_ffmpeg_command]

/-- Witness for `run_ffmpeg_success_iff`: a process completing with exit
status `0` and no force-stop is reported as success. -/
theorem run_ffmpeg_success_iff_witness :
    (run_ffmpeg_command (RunScenario.completed 0)).success = true :=
  (run_ffmpeg_success_iff.1 (RunScenario.completed 0)).mpr
    ⟨rfl, fun h => RunScenario.noConfusion h⟩

/-- C9: for every nonempty artifact list, `concatenate_segments`' step
trace is exactly manifest-write, backend invocation, manifest removal —
the manifest removal happens last, after the operation, whether the
backend invocation succeeded, failed or raised (the raised case being the
one where the call propagates the exception, i.e. returns no boolean). -/
theorem concatenate_segments_manifest_cleanup :
    ∀ (files : List ℕ) (backend : BackendResult), files ≠ [] →
      (concatenate_segments files backend).2 =
        [ConcatStep.writeManifest, ConcatStep.invokeBackend,
          ConcatStep.removeManifest] ∧
      (concatenate_segments files backend).2.getLast? =
        some ConcatStep.removeManifest ∧
      ((concatenate_segments files backend).1 = none ↔
        backend = BackendResult.raised) := by
  intro files backend hne
  rw [concatenate_segments.eq_def, if_neg hne]
  refine ⟨rfl, rfl, ?_⟩
  cases backend <;> simp

/-- Witness for `concatenate_segments_manifest_cleanup`: one artifact and a
raising backend still end with the manifest removal. -/
theorem concatenate_segments_manifest_cleanup_witness :
    (concatenate_segments [0] BackendResult.raised).2 =
      [ConcatStep.writeManifest, ConcatStep.invokeBackend,
        ConcatStep.removeManifest] ∧
    (concatenate_segments [0] BackendResult.raised).2.getLast? =
      some ConcatStep.removeManifest ∧
    ((concatenate_segments [0] BackendResult.raised).1 = none ↔
      BackendResult.raised = BackendResult.raised) :=
  concatenate_segments_manifest_cleanup [0] BackendResult.raised (by simp)

/-- The pre-loop effects never include the concatenation. -/
theorem concatOutput_not_mem_preGuardTrace (env : Env) :
    Effect.concatOutput ∉ preGuardTrace env := by
  cases hde : env.destExists <;> simp [preGuardTrace, hde]

/-- When all pre-run guards pass, `main_process` reduces to the scan, the
loop and the final-outcome decision, with the effect trace assembled in
source order. -/
theorem main_process_of_guards (env : Env) (h : GuardsPass env) :
    main_process env =
      ((finalOutcome env (completedCount env) (planCount env)).1,
        preGuardTrace env ++ [Effect.deleteOrphanParts] ++
          (scanOf env).deleted.map Effect.deleteSegmentArtifact ++ (loopOf env).2 ++
          (finalOutcome env (completedCount env) (planCount env)).2) := by
  obtain ⟨h1, h2, h3, h4⟩ := h
  have c1 : (!env.mkdirOk) = false := by rw [h1]; rfl
  have c2 : ¬ (env.totalDuration ≤ 0) := not_le.mpr h2
  have c3 : (env.destExists && !env.overwrite) = false := by
    cases hde : env.destExists
    · simp
    · simp [(h3 hde).1]
  have c4 : (env.destExists && !env.deleteDestOk) = false := by
    cases hde : env.destExists
    · simp
    · simp [(h3 hde).2]
  simp [main_process, c1, c2, c3, c4, h4]

/-- Every `main_process` run exits with code `0` or `1`. -/
theorem main_process_exit_cases (env : Env) :
    (main_process env).1 = 0 ∨ (main_process env).1 = 1 := by
  rw [main_process]
  split_ifs with h1 h2 h3 h4 h5
  · right; rfl
  · right; rfl
  · left; rfl
  · right; rfl
  · right; rfl
  · rw [finalOutcome]
    split_ifs <;> simp

/-- C6 counterexample: with the destination existing and no overwrite flag,
the run does exit `0`, but it is not true that no file is written — the
rerun-command record is written (and the segments directory created) before
the destination check, so the trace contains a write. -/
theorem main_process_no_overwrite_counterexample :
    (main_process envDestExistsNoOverwrite).1 = 0 ∧
    Effect.writeRerunFile ∈ (main_process envDestExistsNoOverwrite).2 := by
  have h : main_process envDestExistsNoOverwrite =
      (0, [Effect.mkdirSegmentsDir, Effect.writeRerunFile]) := by
    rw [main_process]
    norm_num [envDestExistsNoOverwrite, envAllGood]
  rw [h]
  exact ⟨rfl, by simp⟩

/-- C6 (amended): when the destination exists and overwrite was not
requested (and the input duration probes positive), the run exits `0`
having encoded no segment, deleted or modified no artifact and performed no
concatenation — its only effects are creating the segments directory and
writing the rerun-command record, both of which happen before the
destination check. -/
theorem main_process_no_overwrite_spec (env : Env)
    (hmk : env.mkdirOk = true) (hdur : 0 < env.totalDuration)
    (hde : env.destExists = true) (hov : env.overwrite = false) :
    main_process env = (0, [Effect.mkdirSegmentsDir, Effect.writeRerunFile]) := by
  have c1 : (!env.mkdirOk) = false := by rw [hmk]; rfl
  have c2 : ¬ (env.totalDuration ≤ 0) := not_le.mpr hdur
  have c3 : (env.destExists && !env.overwrite) = true := by rw [hde, hov]; rfl
  simp [main_process, c1, c2, c3]

/-- Witness for `main_process_no_overwrite_spec` on
`envDestExistsNoOverwrite`. -/
theorem main_process_no_overwrite_spec_witness :
    main_process envDestExistsNoOverwrite =
      (0, [Effect.mkdirSegmentsDir, Effect.writeRerunFile]) :=
  main_process_no_overwrite_spec envDestExistsNoOverwrite rfl
    (by norm_num [envDestExistsNoOverwrite, envAllGood]) rfl rfl

/-- C7: the concatenation effect occurs in a run's trace only when no stop
is pending at the final check and the number of completed segment artifacts
equals the number of planned segments; a run whose guards pass, in which no
stop is ever requested and whose encoding loop hits a first failing segment
`j` (encode or rename failure, everything before `j` succeeding) exits `1`
without ever invoking concatenation (so the destination is never created);
and a graceful stop pending at the final check exits `0`, also without
concatenating. -/
theorem concat_gate_and_failure_spec :
    (∀ env : Env, Effect.concatOutput ∈ (main_process env).2 →
      env.stopFinal = false ∧ completedCount env = planCount env) ∧
    (∀ (env : Env) (j : ℕ), GuardsPass env → env.stopFinal = false →
      (∀ i, env.stopReq i = false) →
      (scanOf env).resumeIdx ≤ j → j < planCount env →
      (∀ k, (scanOf env).resumeIdx ≤ k → k < j →
        env.encodeOk k = true ∧ env.moveOk k = true) →
      (env.encodeOk j = false ∨ env.moveOk j = false) →
      ((main_process env).1 = 1 ∧ Effect.concatOutput ∉ (main_process env).2)) ∧
    (∀ env : Env, GuardsPass env → env.stopFinal = true →
      ((main_process env).1 = 0 ∧ Effect.concatOutput ∉ (main_process env).2)) := by
  refine ⟨?_, ?_, ?_⟩
  · intro env hmem
    rw [main_process] at hmem
    split_ifs at hmem with h1 h2 h3 h4 h5
    · simp at hmem
    · simp at hmem
    · simp at hmem
    · simp at hmem
    · rcases hde : env.destExists <;> simp [preGuardTrace, hde] at hmem
    · simp only [List.append_assoc, List.mem_append] at hmem
      rcases hmem with hm | hm | hm | hm | hm
      · exact absurd hm (concatOutput_not_mem_preGuardTrace env)
      · simp at hm
      · simp at hm
      · exact absurd hm (encodeLoop_no_concat env _ _)
      · rw [finalOutcome] at hm
        by_cases g1 : env.stopFinal = true
        · rw [if_pos g1] at hm
          simp at hm
        · rw [if_neg g1] at hm
          by_cases g2 : completedCount env = planCount env
          · exact ⟨by simpa using g1, g2⟩
          · rw [if_neg g2] at hm
            simp at hm
  · intro env j hg hsf hstopall hj1 hj2 hok hfail
    have hlen : ((planSegs env).map Segment.duration).length = planCount env := by
      rw [List.length_map, planCount]
    have hscan := resumeScan_resumeIdx_eq env.fs ((planSegs env).map Segment.duration)
    have hidx : (scanOf env).resumeIdx = (scanOf env).completed.length := by
      rw [scanOf]
      exact hscan.1
    have hle : (scanOf env).completed.length ≤ planCount env := by
      rw [scanOf, ← hlen]
      exact hscan.2
    have hloop : (loopOf env).1 = j - (scanOf env).resumeIdx := by
      rw [loopOf]
      exact encodeLoop_count_first_fail env hstopall _ _ j hj1 (by omega) hok hfail
    have hcc : completedCount env = j := by
      rw [completedCount, hloop]
      omega
    have hne : completedCount env ≠ planCount env := by omega
    rw [main_process_of_guards env hg]
    constructor
    · simp [finalOutcome, hsf, hne]
    · intro hmem
      simp only [List.append_assoc, List.mem_append] at hmem
      rcases hmem with hm | hm | hm | hm | hm
      · exact absurd hm (concatOutput_not_mem_preGuardTrace env)
      · simp at hm
      · simp at hm
      · exact absurd hm (encodeLoop_no_concat env _ _)
      · simp [finalOutcome, hsf, hne] at hm
  · intro env hg hsf
    rw [main_process_of_guards env hg]
    constructor
    · simp [finalOutcome, hsf]
    · intro hmem
      simp only [List.append_assoc, List.mem_append] at hmem
      rcases hmem with hm | hm | hm | hm | hm
      · exact absurd hm (concatOutput_not_mem_preGuardTrace env)
      · simp at hm
      · simp at hm
      · exact absurd hm (encodeLoop_no_concat env _ _)
      · simp [finalOutcome, hsf] at hm

/-- Concrete plan of the example environments. -/
theorem envAllGood_plan :
    planSegs envAllGood = [⟨0, 5, 5⟩, ⟨5, 10, 5⟩, ⟨10, 12, 2⟩] := by
  rw [planSegs]
  exact calculate_segments_twelve_five

/-- The fault-free example environment passes every pre-run guard. -/
theorem envAllGood_guards : GuardsPass envAllGood := by
  refine ⟨rfl, by norm_num [envAllGood], ?_, ?_⟩
  · intro h
    simp [envAllGood] at h
  · rw [envAllGood_plan]
    simp

/-- The fault-free example starts with an empty scan. -/
theorem envAllGood_scan : scanOf envAllGood = ⟨[], [], 0⟩ := by
  rw [scanOf, envAllGood_plan]
  rfl

/-- In the fault-free example every planned segment completes. -/
theorem envAllGood_completed : completedCount envAllGood = planCount envAllGood := by
  have hpc : planCount envAllGood = 3 := by
    rw [planCount, envAllGood_plan]
    rfl
  rw [completedCount, loopOf, envAllGood_scan, hpc]
  rfl

/-- Concrete plan of the fault-injection environment. -/
theorem envSegmentFail_plan :
    planSegs envSegmentFail = [⟨0, 5, 5⟩, ⟨5, 10, 5⟩, ⟨10, 12, 2⟩] := by
  rw [planSegs]
  exact calculate_segments_twelve_five

/-- The fault-injection environment passes every pre-run guard. -/
theorem envSegmentFail_guards : GuardsPass envSegmentFail := by
  refine ⟨rfl, by norm_num [envSegmentFail, envAllGood], ?_, ?_⟩
  · intro h
    simp [envSegmentFail, envAllGood] at h
  · rw [envSegmentFail_plan]
    simp

/-- The fault-injection environment starts with an empty scan. -/
theorem envSegmentFail_scan : scanOf envSegmentFail = ⟨[], [], 0⟩ := by
  rw [scanOf, envSegmentFail_plan]
  rfl

/-- Witness for `concat_gate_and_failure_spec`: with segment 3 failing and
no stop requested, the run exits `1` and never concatenates. -/
theorem concat_gate_and_failure_spec_witness :
    (main_process envSegmentFail).1 = 1 ∧
    Effect.concatOutput ∉ (main_process envSegmentFail).2 := by
  apply concat_gate_and_failure_spec.2.1 envSegmentFail 2 envSegmentFail_guards rfl
    (fun i => rfl)
  · rw [envSegmentFail_scan]
    simp
  · rw [planCount, envSegmentFail_plan]
    norm_num
  · intro k hk1 hk2
    refine ⟨?_, rfl⟩
    simp only [envSegmentFail, decide_eq_true_iff]
    exact hk2
  · left
    rfl

/-- C8: the wrapper exits `2` on an uncaught fatal error; every exit code
is `0`, `1` or `2`; with the guards passing, a pending user stop exits `0`,
a fully completed run with successful concatenation exits `0`, an
incomplete run (fewer completed artifacts than planned segments, no stop)
exits `1`, and a completed run whose concatenation fails exits `1`. -/
theorem exit_code_spec :
    (∀ env : Env, script_main env true = 2) ∧
    (∀ (env : Env) (f : Bool),
      script_main env f = 0 ∨ script_main env f = 1 ∨ script_main env f = 2) ∧
    (∀ env : Env, GuardsPass env → env.stopFinal = true →
      script_main env false = 0) ∧
    (∀ env : Env, GuardsPass env → env.stopFinal = false →
      completedCount env = planCount env → env.concatOk = true →
      script_main env false = 0) ∧
    (∀ env : Env, GuardsPass env → env.stopFinal = false →
      completedCount env ≠ planCount env → script_main env false = 1) ∧
    (∀ env : Env, GuardsPass env → env.stopFinal = false →
      completedCount env = planCount env → env.concatOk = false →
      script_main env false = 1) := by
  refine ⟨fun env => rfl, ?_, ?_, ?_, ?_, ?_⟩
  · intro env f
    cases f
    · rcases main_process_exit_cases env with h | h
      · left
        simpa [script_main] using h
      · right
        left
        simpa [script_main] using h
    · right
      right
      rfl
  · intro env hg hsf
    have h := main_process_of_guards env hg
    simp [script_main, h, finalOutcome, hsf]
  · intro env hg hsf hcc hconc
    have h := main_process_of_guards env hg
    simp [script_main, h, finalOutcome, hsf, hcc, hconc]
  · intro env hg hsf hcc
    have h := main_process_of_guards env hg
    simp [script_main, h, finalOutcome, hsf, hcc]
  · intro env hg hsf hcc hconc
    have h := main_process_of_guards env hg
    simp [script_main, h, finalOutcome, hsf, hcc, hconc]

/-- Witness for `exit_code_spec`: a fatal error exits `2`; the fault-free
full run exits `0`. -/
theorem exit_code_spec_witness :
    script_main envAllGood true = 2 ∧ script_main envAllGood false = 0 :=
  ⟨exit_code_spec.1 envAllGood,
    exit_code_spec.2.2.2.1 envAllGood envAllGood_guards rfl envAllGood_completed rfl⟩
